import Mathlib

/-!
Shallow embedding of the device-side virtio split-virtqueue engine
(`Queue` in `queue.rs` and the `Descriptor` sum type in `descriptor/mod.rs`),
together with proofs checking the natural-language specification against it.

Machine integers are modelled as `Nat` with explicit reduction modulo `2^16`
(for the `u16` / `Wrapping<u16>` fields) and an explicit `2^64` overflow check
for guest-address arithmetic (`checked_add`).  Guest memory is modelled as a
byte-addressed space with a validity predicate; a failing load/store returns
`none`, mirroring the fallible `load`/`store`/`write_obj` calls of the guest
memory capability.  Atomic memory orderings and fences have no semantic
content in this sequential embedding; the ordering arguments are kept in the
signatures for fidelity to the source but are ignored.
-/

/-- Modulus of 16-bit wrapping arithmetic. -/
def U16MOD : Nat := 65536

/-- Number of values of a `u64`; `checked_add` fails at or above this bound. -/
def U64LIMIT : Nat := 18446744073709551616

/-- The `u64::checked_add` operation used for guest-address arithmetic:
`some (a + b)` when the sum fits in a `u64`, `none` on overflow. -/
def checkedAdd (a b : Nat) : Option Nat :=
  if a + b < U64LIMIT then some (a + b) else none

/-- Wrapping 16-bit subtraction, as performed on `Wrapping<u16>` values:
`(a - b) mod 2^16`. -/
def wsub16 (a b : Nat) : Nat :=
  (a % U16MOD + U16MOD - b % U16MOD) % U16MOD

/-- Size in bytes of one available-ring element (a `u16` head index);
`VIRTQ_AVAIL_ELEMENT_SIZE` in the crate's definitions.  Modelled from the
spec: the available ring is `flags:u16, idx:u16, ring[size]:u16, used_event`. -/
def VIRTQ_AVAIL_ELEMENT_SIZE : Nat := 2

/-- Size in bytes of the available ring's header (`flags` and `idx`);
`VIRTQ_AVAIL_RING_HEADER_SIZE` in the crate's definitions, modelled from the
spec wire layout. -/
def VIRTQ_AVAIL_RING_HEADER_SIZE : Nat := 4

/-- Header plus the trailing `used_event` word of the available ring;
`VIRTQ_AVAIL_RING_META_SIZE` in the crate's definitions, modelled from the
spec wire layout. -/
def VIRTQ_AVAIL_RING_META_SIZE : Nat := VIRTQ_AVAIL_RING_HEADER_SIZE + 2

/-- Size in bytes of one used-ring element `{id:u32, len:u32}`;
`VIRTQ_USED_ELEMENT_SIZE` in the crate's definitions, modelled from the spec
wire layout. -/
def VIRTQ_USED_ELEMENT_SIZE : Nat := 8

/-- Size in bytes of the used ring's header (`flags` and `idx`);
`VIRTQ_USED_RING_HEADER_SIZE` in the crate's definitions, modelled from the
spec wire layout. -/
def VIRTQ_USED_RING_HEADER_SIZE : Nat := 4

/-- Header plus the trailing `avail_event` word of the used ring;
`VIRTQ_USED_RING_META_SIZE` in the crate's definitions, modelled from the
spec wire layout. -/
def VIRTQ_USED_RING_META_SIZE : Nat := VIRTQ_USED_RING_HEADER_SIZE + 2

/-- Byte size of one descriptor-table entry, `size_of::<Descriptor>()` in
`is_valid`.  Modelled from the spec: the descriptor table is an array of
16-byte entries `{addr:u64, len:u32, flags:u16, next:u16}`. -/
def sizeOfDescriptor : Nat := 16

/-- Construction-time default guest address of the descriptor table
(`DEFAULT_DESC_TABLE_ADDR`), modelled from the crate's definitions. -/
def DEFAULT_DESC_TABLE_ADDR : Nat := 0

/-- Construction-time default guest address of the available ring
(`DEFAULT_AVAIL_RING_ADDR`), modelled from the crate's definitions. -/
def DEFAULT_AVAIL_RING_ADDR : Nat := 0

/-- Construction-time default guest address of the used ring
(`DEFAULT_USED_RING_ADDR`), modelled from the crate's definitions. -/
def DEFAULT_USED_RING_ADDR : Nat := 0

/-- The `VRING_USED_F_NO_NOTIFY` flag written to the used ring's `flags`
field to suppress driver notifications. -/
def VRING_USED_F_NO_NOTIFY : Nat := 1

/-- The `VRING_DESC_F_NEXT` descriptor flag. -/
def VRING_DESC_F_NEXT : Nat := 1

/-- The `VRING_DESC_F_WRITE` descriptor flag. -/
def VRING_DESC_F_WRITE : Nat := 2

/-- The `VRING_DESC_F_INDIRECT` descriptor flag. -/
def VRING_DESC_F_INDIRECT : Nat := 4

/-- Atomic memory orderings of the source; they carry no semantics in this
sequential embedding but are kept in the signatures for fidelity. -/
inductive MemOrder where
  | Relaxed
  | Acquire
  | Release
  | SeqCst
deriving DecidableEq

/-- Error type of the queue operations (`Error` in the crate): guest-memory
access failure, `u64` address overflow, or an out-of-range descriptor index. -/
inductive QError where
  | GuestMemory
  | AddressOverflow
  | InvalidDescriptorIndex
deriving DecidableEq

/-- Byte-addressed guest memory space: `validByte` tells whether a byte
address is backed by a region (the crate's `address_in_range`), `byte` gives
the content of each byte (reduced mod 256 on access). -/
structure GuestMem where
  validByte : Nat → Bool
  byte : Nat → Nat

/-- The guest-memory capability `address_in_range`. -/
def GuestMem.addressInRange (m : GuestMem) (a : Nat) : Bool :=
  m.validByte a

/-- Check that the `n` bytes starting at `a` are all backed. -/
def GuestMem.validRange (m : GuestMem) (a n : Nat) : Bool :=
  (List.range n).all (fun i => m.validByte (a + i))

/-- Atomic little-endian `u16` load (`mem.load::<u16>`); fails when either
byte is unbacked.  The ordering argument is ignored in this embedding. -/
def GuestMem.load16 (m : GuestMem) (a : Nat) (_order : MemOrder) : Option Nat :=
  if m.validByte a && m.validByte (a + 1) then
    some (m.byte a % 256 + 256 * (m.byte (a + 1) % 256))
  else
    none

/-- Atomic little-endian `u16` store (`mem.store::<u16>`); fails when either
byte is unbacked.  The ordering argument is ignored in this embedding. -/
def GuestMem.store16 (m : GuestMem) (a v : Nat) (_order : MemOrder) : Option GuestMem :=
  if m.validByte a && m.validByte (a + 1) then
    some ⟨m.validByte, fun x =>
      if x = a then v % 256
      else if x = a + 1 then v / 256 % 256
      else m.byte x⟩
  else
    none

/-- Little-endian `u32` load of the four bytes starting at `a`. -/
def GuestMem.load32 (m : GuestMem) (a : Nat) : Option Nat :=
  if m.validRange a 4 then
    some (m.byte a % 256 + 256 * (m.byte (a + 1) % 256)
      + 65536 * (m.byte (a + 2) % 256) + 16777216 * (m.byte (a + 3) % 256))
  else
    none

/-- The `mem.write_obj(VirtqUsedElem::new(id, len), addr)` call of `add_used`:
writes the 8-byte little-endian used-ring element `{id:u32, len:u32}` at `a`,
failing (with no change) when any of the 8 bytes is unbacked. -/
def GuestMem.writeUsedElem (m : GuestMem) (a id len : Nat) : Option GuestMem :=
  if m.validRange a 8 then
    some ⟨m.validByte, fun x =>
      if x = a then id % 256
      else if x = a + 1 then id / 256 % 256
      else if x = a + 2 then id / 65536 % 256
      else if x = a + 3 then id / 16777216 % 256
      else if x = a + 4 then len % 256
      else if x = a + 5 then len / 256 % 256
      else if x = a + 6 then len / 65536 % 256
      else if x = a + 7 then len / 16777216 % 256
      else m.byte x⟩
  else
    none

/-- Read back a used-ring element `{id:u32, len:u32}` stored at `a`. -/
def GuestMem.loadUsedElem (m : GuestMem) (a : Nat) : Option (Nat × Nat) :=
  match m.load32 a, m.load32 (a + 4) with
  | some i, some l => some (i, l)
  | _, _ => none

/-- The `Queue` struct of `queue.rs`.  `u16` and `Wrapping<u16>` fields are
`Nat`s; theorems carry the `< 2^16` bounds that the Rust types enforce.
Guest addresses are `Nat`s bounded by `2^64` where it matters. -/
structure Queue where
  max_size : Nat
  next_avail : Nat
  next_used : Nat
  event_idx_enabled : Bool
  num_added : Nat
  size : Nat
  ready : Bool
  desc_table : Nat
  avail_ring : Nat
  used_ring : Nat
deriving DecidableEq

/-- `Queue::new(max_size)`. -/
def Queue.new (max_size : Nat) : Queue where
  max_size := max_size
  size := max_size
  ready := false
  desc_table := DEFAULT_DESC_TABLE_ADDR
  avail_ring := DEFAULT_AVAIL_RING_ADDR
  used_ring := DEFAULT_USED_RING_ADDR
  next_avail := 0
  next_used := 0
  event_idx_enabled := false
  num_added := 0

/-- `Queue::is_valid(mem)`: checks `ready` and, for each of the three ring
regions, that `base.checked_add(region_size)` neither overflows nor lands
outside the address range. -/
def Queue.is_valid (q : Queue) (m : GuestMem) : Bool :=
  let queue_size := q.size
  let desc_table_size := sizeOfDescriptor * queue_size
  let avail_ring_size := VIRTQ_AVAIL_RING_META_SIZE + VIRTQ_AVAIL_ELEMENT_SIZE * queue_size
  let used_ring_size := VIRTQ_USED_RING_META_SIZE + VIRTQ_USED_ELEMENT_SIZE * queue_size
  if !q.ready then
    false
  else if (checkedAdd q.desc_table desc_table_size).elim true
      (fun v => !(m.addressInRange v)) then
    false
  else if (checkedAdd q.avail_ring avail_ring_size).elim true
      (fun v => !(m.addressInRange v)) then
    false
  else if (checkedAdd q.used_ring used_ring_size).elim true
      (fun v => !(m.addressInRange v)) then
    false
  else
    true

/-- `Queue::reset()`. -/
def Queue.reset (q : Queue) : Queue :=
  { q with
    ready := false
    size := q.max_size
    desc_table := DEFAULT_DESC_TABLE_ADDR
    avail_ring := DEFAULT_AVAIL_RING_ADDR
    used_ring := DEFAULT_USED_RING_ADDR
    next_avail := 0
    next_used := 0
    num_added := 0
    event_idx_enabled := false }

/-- `Queue::set_size(size)`: rejects (leaving the queue unchanged) a size
that is zero, exceeds `max_size`, or is not a power of two (tested as
`size & (size - 1) != 0`). -/
def Queue.set_size (q : Queue) (size : Nat) : Queue :=
  if size > q.max_size || size == 0 || (size &&& (size - 1)) != 0 then
    q
  else
    { q with size := size }

/-- `Queue::avail_idx(mem, order)`: load of the `u16` at `avail_ring + 2`. -/
def Queue.avail_idx (q : Queue) (m : GuestMem) (order : MemOrder) : Except QError Nat :=
  match checkedAdd q.avail_ring 2 with
  | none => .error .AddressOverflow
  | some addr =>
    match m.load16 addr order with
    | none => .error .GuestMemory
    | some v => .ok v

/-- `Queue::used_idx(mem, order)`: load of the `u16` at `used_ring + 2`. -/
def Queue.used_idx (q : Queue) (m : GuestMem) (order : MemOrder) : Except QError Nat :=
  match checkedAdd q.used_ring 2 with
  | none => .error .AddressOverflow
  | some addr =>
    match m.load16 addr order with
    | none => .error .GuestMemory
    | some v => .ok v

/-- The private `Queue::used_event(mem, order)` helper: reads the
driver-published threshold from the avail ring at offset
`VIRTQ_AVAIL_RING_HEADER_SIZE + size * VIRTQ_AVAIL_ELEMENT_SIZE`. -/
def Queue.used_event (q : Queue) (m : GuestMem) (order : MemOrder) : Except QError Nat :=
  match checkedAdd q.avail_ring
      (VIRTQ_AVAIL_RING_HEADER_SIZE + q.size * VIRTQ_AVAIL_ELEMENT_SIZE) with
  | none => .error .AddressOverflow
  | some addr =>
    match m.load16 addr order with
    | none => .error .GuestMemory
    | some v => .ok v

/-- The private `Queue::set_avail_event(mem, val, order)` helper: stores
`val` into the `avail_event` slot of the used ring at offset
`VIRTQ_USED_RING_HEADER_SIZE + VIRTQ_USED_ELEMENT_SIZE * size`. -/
def Queue.set_avail_event (q : Queue) (m : GuestMem) (val : Nat) (order : MemOrder) :
    Except QError GuestMem :=
  match checkedAdd q.used_ring
      (VIRTQ_USED_RING_HEADER_SIZE + VIRTQ_USED_ELEMENT_SIZE * q.size) with
  | none => .error .AddressOverflow
  | some addr =>
    match m.store16 addr val order with
    | none => .error .GuestMemory
    | some m1 => .ok m1

/-- The private `Queue::set_used_flags(mem, val, order)` helper: stores `val`
to the `flags` field at the base of the used ring. -/
def Queue.set_used_flags (q : Queue) (m : GuestMem) (val : Nat) (order : MemOrder) :
    Except QError GuestMem :=
  match m.store16 q.used_ring val order with
  | none => .error .GuestMemory
  | some m1 => .ok m1

/-- The private `Queue::set_notification(mem, enable)` helper.  All accesses
use `Relaxed` ordering; the caller adds a fence when appropriate. -/
def Queue.set_notification (q : Queue) (m : GuestMem) (enable : Bool) :
    Except QError GuestMem :=
  if enable then
    if q.event_idx_enabled then
      q.set_avail_event m q.next_avail .Relaxed
    else
      q.set_used_flags m 0 .Relaxed
  else if !q.event_idx_enabled then
    q.set_used_flags m VRING_USED_F_NO_NOTIFY .Relaxed
  else
    .ok m

/-- `Queue::enable_notification(mem)`: arm notifications, fence (a no-op in
this sequential embedding), then re-read `avail_idx` and report whether it
differs from `next_avail`.  Returns the possibly-updated memory alongside
the boolean. -/
def Queue.enable_notification (q : Queue) (m : GuestMem) :
    Except QError (Bool × GuestMem) :=
  match q.set_notification m true with
  | .error e => .error e
  | .ok m1 =>
    match q.avail_idx m1 .Relaxed with
    | .error e => .error e
    | .ok idx => .ok (decide (idx ≠ q.next_avail % U16MOD), m1)

/-- `Queue::disable_notification(mem)`. -/
def Queue.disable_notification (q : Queue) (m : GuestMem) : Except QError GuestMem :=
  q.set_notification m false

/-- `Queue::needs_notification(mem)`: with the event-index feature enabled,
reads `used_event`, computes `old = next_used - num_added`, resets
`num_added` to zero and evaluates
`used_idx - used_event - 1 < used_idx - old` in wrapping `u16` arithmetic;
with the feature disabled, returns `true` with no state change.  The result
pairs the `Result<bool>` with the post-state of the queue. -/
def Queue.needs_notification (q : Queue) (m : GuestMem) :
    Except QError Bool × Queue :=
  let used_idx := q.next_used
  if q.event_idx_enabled then
    match q.used_event m .Relaxed with
    | .error e => (.error e, q)
    | .ok used_event =>
      let old := wsub16 used_idx q.num_added
      let q1 := { q with num_added := 0 }
      (.ok (decide (wsub16 (wsub16 used_idx used_event) 1 < wsub16 used_idx old)), q1)
  else
    (.ok true, q)

/-- `Queue::add_used(mem, head_index, len)`: rejects `head_index >= size`
without touching anything; otherwise writes the used-ring element at
`used_ring + header + (next_used % size) * 8`, increments `next_used` and
`num_added` (wrapping), and publishes the new `next_used` to the ring's
`idx` field with release ordering.  Returns the `Result<()>` together with
the post-state of the queue and memory. -/
def Queue.add_used (q : Queue) (m : GuestMem) (head_index : Nat) (len : Nat) :
    Except QError Unit × Queue × GuestMem :=
  if head_index ≥ q.size then
    (.error .InvalidDescriptorIndex, q, m)
  else
    let next_used_index := q.next_used % q.size
    let offset := VIRTQ_USED_RING_HEADER_SIZE + next_used_index * VIRTQ_USED_ELEMENT_SIZE
    match checkedAdd q.used_ring offset with
    | none => (.error .AddressOverflow, q, m)
    | some addr =>
      match m.writeUsedElem addr head_index len with
      | none => (.error .GuestMemory, q, m)
      | some m1 =>
        let q1 := { q with
          next_used := (q.next_used + 1) % U16MOD
          num_added := (q.num_added + 1) % U16MOD }
        match checkedAdd q.used_ring 2 with
        | none => (.error .AddressOverflow, q1, m1)
        | some addr2 =>
          match m1.store16 addr2 q1.next_used .Release with
          | none => (.error .GuestMemory, q1, m1)
          | some m2 => (.ok (), q1, m2)

/-- The split descriptor `{addr:u64, len:u32, flags:u16, next:u16}`.
Modelled from the spec: the split descriptor module itself is not among the
provided sources, only its 16-byte little-endian field layout and accessors. -/
structure SplitDesc where
  addr : Nat
  len : Nat
  flags : Nat
  next : Nat
deriving DecidableEq

/-- The packed descriptor `{addr:u64, len:u32, id:u16, flags:u16}` of
`packed_descriptor.rs`. -/
structure PackedDesc where
  addr : Nat
  len : Nat
  id : Nat
  flags : Nat
deriving DecidableEq

/-- The `Descriptor` sum type of `descriptor/mod.rs`, polymorphic over the
split and packed variants. -/
inductive Descriptor where
  | SplitDescriptor : SplitDesc → Descriptor
  | PackedDescriptor : PackedDesc → Descriptor
deriving DecidableEq

/-- `Descriptor::addr()`; `none` would model a panic, and both arms are
defined in the source. -/
def Descriptor.addr : Descriptor → Option Nat
  | .SplitDescriptor d => some d.addr
  | .PackedDescriptor d => some d.addr

/-- `Descriptor::len()`; both arms are defined in the source. -/
def Descriptor.len : Descriptor → Option Nat
  | .SplitDescriptor d => some d.len
  | .PackedDescriptor d => some d.len

/-- `Descriptor::flags()`; both arms are defined in the source. -/
def Descriptor.flags : Descriptor → Option Nat
  | .SplitDescriptor d => some d.flags
  | .PackedDescriptor d => some d.flags

/-- `Descriptor::next()`: defined on the split variant; on the packed
variant the source calls `unimplemented!()`, which panics — modelled as
`none`. -/
def Descriptor.next : Descriptor → Option Nat
  | .SplitDescriptor d => some d.next
  | .PackedDescriptor _ => none

/-- `Descriptor::refers_to_indirect_table()`: a bit test on `flags()`. -/
def Descriptor.refers_to_indirect_table (d : Descriptor) : Option Bool :=
  d.flags.map (fun f => f &&& VRING_DESC_F_INDIRECT != 0)

/-- `Descriptor::has_next()`: a bit test on `flags()`. -/
def Descriptor.has_next (d : Descriptor) : Option Bool :=
  d.flags.map (fun f => f &&& VRING_DESC_F_NEXT != 0)

/-- `Descriptor::is_write_only()`: a bit test on `flags()`. -/
def Descriptor.is_write_only (d : Descriptor) : Option Bool :=
  d.flags.map (fun f => f &&& VRING_DESC_F_WRITE != 0)

/-- Membership of `thr` in the circular half-open interval `(old, nu]` of
16-bit sequence space, following the spec's words: `thr` is reached from
`old` by adding some `k` with `1 ≤ k ≤ (nu - old) mod 2^16`. -/
def inCircIntervalOC (old nu thr : Nat) : Prop :=
  ∃ k, 1 ≤ k ∧ k ≤ wsub16 nu old ∧ thr % U16MOD = (old + k) % U16MOD

/-- Membership of `thr` in the circular half-open interval `[old, nu)` of
16-bit sequence space: `thr = old + k` for some `0 ≤ k < (nu - old) mod 2^16`. -/
def inCircIntervalCO (old nu thr : Nat) : Prop :=
  ∃ k, k < wsub16 nu old ∧ thr % U16MOD = (old + k) % U16MOD

/-- A ring region fits entirely within the addressable range: its base plus
size does not overflow a `u64` and every byte it occupies is backed. -/
def regionFits (m : GuestMem) (base sz : Nat) : Prop :=
  base + sz < U64LIMIT ∧ ∀ i, i < sz → m.validByte (base + i) = true

/-- Fully-backed guest memory whose bytes are all zero. -/
def memAll : GuestMem where
  validByte := fun _ => true
  byte := fun _ => 0

/-- Guest memory that is fully backed except for the two bytes at addresses
2 and 3 (the `idx` field of a used ring based at address 0). -/
def memHole : GuestMem where
  validByte := fun a => decide (a ≠ 2 ∧ a ≠ 3)
  byte := fun _ => 0

/-- Fully-backed guest memory holding the value 5 in the `used_event` word of
an available ring based at 8192 with 16 elements (address `8192 + 4 + 2*16`). -/
def memC1 : GuestMem where
  validByte := fun _ => true
  byte := fun a => if a = 8228 then 5 else 0

/-- Contiguous guest memory backing exactly the addresses below 65536. -/
def memC4 : GuestMem where
  validByte := fun a => decide (a < 65536)
  byte := fun _ => 0

/-- A configured queue with the event-index feature on, `num_added = 1`,
16 elements, and the available ring at 8192 (so `used_event` sits at 8228). -/
def qC1 : Queue where
  max_size := 16
  next_avail := 0
  next_used := 0
  event_idx_enabled := true
  num_added := 1
  size := 16
  ready := true
  desc_table := 0
  avail_ring := 8192
  used_ring := 12288

/-- The family of queues `qC1` with `next_used` swept over `nu`. -/
def qC1at (nu : Nat) : Queue where
  max_size := 16
  next_avail := 0
  next_used := nu
  event_idx_enabled := true
  num_added := 1
  size := 16
  ready := true
  desc_table := 0
  avail_ring := 8192
  used_ring := 12288

/-- A queue with the event-index feature off and a nonzero `num_added`. -/
def qOff : Queue where
  max_size := 16
  next_avail := 0
  next_used := 3
  event_idx_enabled := false
  num_added := 7
  size := 16
  ready := true
  desc_table := 0
  avail_ring := 8192
  used_ring := 12288

/-- A ready queue whose descriptor table ends exactly at the 65536-byte
boundary of `memC4`: the region fits entirely, but its one-past-the-end
address 65536 is not itself in range. -/
def qC4 : Queue where
  max_size := 16
  next_avail := 0
  next_used := 0
  event_idx_enabled := false
  num_added := 0
  size := 16
  ready := true
  desc_table := 65280
  avail_ring := 0
  used_ring := 4096

/-- A small configured queue with the used ring at 4096, used to exercise
`add_used` on fully-backed memory. -/
def qSmall : Queue where
  max_size := 16
  next_avail := 0
  next_used := 0
  event_idx_enabled := true
  num_added := 0
  size := 16
  ready := true
  desc_table := 0
  avail_ring := 8192
  used_ring := 4096

/-- A queue whose used ring sits at address 0, so that `memHole` rejects the
store publishing the used ring's `idx` while accepting the element write. -/
def qC10 : Queue where
  max_size := 16
  next_avail := 0
  next_used := 0
  event_idx_enabled := true
  num_added := 0
  size := 16
  ready := true
  desc_table := 8192
  avail_ring := 12288
  used_ring := 0

/-! Helper lemmas. -/

theorem land_two_mul_two_mul (a b : Nat) : (2*a) &&& (2*b) = 2 * (a &&& b) := by
  apply Nat.eq_of_testBit_eq
  intro i
  cases i with
  | zero =>
    simp [Nat.testBit_and, Nat.testBit_zero, Nat.mul_mod_right]
  | succ i =>
    have ha : 2*a/2 = a := by omega
    have hb : 2*b/2 = b := by omega
    have hab : 2*(a &&& b)/2 = a &&& b := by omega
    rw [Nat.testBit_and, Nat.testBit_succ, Nat.testBit_succ, Nat.testBit_succ,
        ha, hb, hab, Nat.testBit_and]

theorem land_two_mul_add_one_two_mul (a b : Nat) : (2*a+1) &&& (2*b) = 2 * (a &&& b) := by
  apply Nat.eq_of_testBit_eq
  intro i
  cases i with
  | zero =>
    simp [Nat.testBit_and, Nat.testBit_zero, Nat.mul_mod_right]
  | succ i =>
    have ha : (2*a+1)/2 = a := by omega
    have hb : 2*b/2 = b := by omega
    have hab : 2*(a &&& b)/2 = a &&& b := by omega
    rw [Nat.testBit_and, Nat.testBit_succ, Nat.testBit_succ, Nat.testBit_succ,
        ha, hb, hab, Nat.testBit_and]

theorem pow2_of_land_pred (s : Nat) (h0 : 0 < s) (h : s &&& (s-1) = 0) : ∃ k, s = 2^k := by
  induction s using Nat.strong_induction_on with
  | _ s ih =>
    obtain ⟨m, rfl | rfl⟩ := Nat.even_or_odd' s
    · have hm : 0 < m := by omega
      have hsub : 2*m - 1 = 2*(m-1)+1 := by omega
      rw [hsub, Nat.land_comm, land_two_mul_add_one_two_mul] at h
      have h2 : (m-1) &&& m = 0 := by omega
      rw [Nat.land_comm] at h2
      obtain ⟨k, hk⟩ := ih m (by omega) hm h2
      exact ⟨k+1, by rw [hk]; ring⟩
    · rcases Nat.eq_zero_or_pos m with hm | hm
      · exact ⟨0, by omega⟩
      · exfalso
        have hsub : 2*m+1-1 = 2*m := by omega
        rw [hsub, land_two_mul_add_one_two_mul, Nat.and_self] at h
        omega

theorem land_pred_of_pow2 (k : Nat) : (2^k) &&& (2^k - 1) = 0 := by
  apply Nat.eq_of_testBit_eq
  intro i
  rw [Nat.testBit_and, Nat.testBit_two_pow, Nat.testBit_two_pow_sub_one, Nat.zero_testBit]
  by_cases hk : k = i
  · subst hk; simp
  · simp [hk]

theorem validRange_elim {m : GuestMem} {a n : Nat} (h : m.validRange a n = true) :
    ∀ i, i < n → m.validByte (a + i) = true := by
  intro i hi
  unfold GuestMem.validRange at h
  rw [List.all_eq_true] at h
  exact h i (List.mem_range.mpr hi)

theorem validRange_intro {m : GuestMem} {a n : Nat}
    (h : ∀ i, i < n → m.validByte (a + i) = true) : m.validRange a n = true := by
  unfold GuestMem.validRange
  rw [List.all_eq_true]
  intro i hi
  exact h i (List.mem_range.mp hi)

theorem store16_isSome (m : GuestMem) (a v : Nat) (ord : MemOrder)
    (h1 : m.validByte a = true) (h2 : m.validByte (a + 1) = true) :
    ∃ m1, m.store16 a v ord = some m1 := by
  unfold GuestMem.store16
  rw [h1, h2]
  exact ⟨_, rfl⟩

theorem store16_none (m : GuestMem) (a v : Nat) (ord : MemOrder)
    (h : (m.validByte a && m.validByte (a + 1)) = false) :
    m.store16 a v ord = none := by
  unfold GuestMem.store16
  rw [h]
  rfl

theorem store16_some_eq {m : GuestMem} {a v : Nat} {ord : MemOrder} {m1 : GuestMem}
    (h : m.store16 a v ord = some m1) :
    m1.validByte = m.validByte ∧
    (∀ x, x ≠ a → x ≠ a + 1 → m1.byte x = m.byte x) ∧
    m.validByte a = true ∧ m.validByte (a + 1) = true ∧
    m1.byte a = v % 256 ∧ m1.byte (a + 1) = v / 256 % 256 := by
  unfold GuestMem.store16 at h
  by_cases hc : (m.validByte a && m.validByte (a + 1)) = true
  · rw [if_pos hc] at h
    injection h with h
    subst h
    obtain ⟨hc1, hc2⟩ := Bool.and_eq_true_iff.mp hc
    have hne : ¬(a + 1 = a) := by omega
    refine ⟨rfl, ?_, hc1, hc2, ?_, ?_⟩
    · intro x hx1 hx2
      simp only [if_neg hx1, if_neg hx2]
    · simp
    · simp [hne]
  · rw [if_neg hc] at h
    exact absurd h (by simp)

theorem writeUsedElem_isSome (m : GuestMem) (a id len : Nat)
    (h : m.validRange a 8 = true) :
    ∃ m1, m.writeUsedElem a id len = some m1 := by
  unfold GuestMem.writeUsedElem
  rw [if_pos h]
  exact ⟨_, rfl⟩

theorem writeUsedElem_some_eq {m : GuestMem} {a id len : Nat} {m1 : GuestMem}
    (h : m.writeUsedElem a id len = some m1) :
    m1.validByte = m.validByte ∧
    (∀ x, x < a ∨ a + 8 ≤ x → m1.byte x = m.byte x) ∧
    (∀ i, i < 8 → m.validByte (a + i) = true) ∧
    m1.byte a = id % 256 ∧ m1.byte (a + 1) = id / 256 % 256 ∧
    m1.byte (a + 2) = id / 65536 % 256 ∧ m1.byte (a + 3) = id / 16777216 % 256 ∧
    m1.byte (a + 4) = len % 256 ∧ m1.byte (a + 5) = len / 256 % 256 ∧
    m1.byte (a + 6) = len / 65536 % 256 ∧ m1.byte (a + 7) = len / 16777216 % 256 := by
  unfold GuestMem.writeUsedElem at h
  by_cases hc : m.validRange a 8 = true
  · rw [if_pos hc] at h
    injection h with h
    subst h
    refine ⟨rfl, ?_, validRange_elim hc, ?_, ?_, ?_, ?_, ?_, ?_, ?_, ?_⟩
    · intro x hx
      simp only [if_neg (show ¬ x = a by omega), if_neg (show ¬ x = a + 1 by omega),
        if_neg (show ¬ x = a + 2 by omega), if_neg (show ¬ x = a + 3 by omega),
        if_neg (show ¬ x = a + 4 by omega), if_neg (show ¬ x = a + 5 by omega),
        if_neg (show ¬ x = a + 6 by omega), if_neg (show ¬ x = a + 7 by omega)]
    · simp
    · simp [show ¬ a + 1 = a by omega]
    · simp [show ¬ a + 2 = a by omega, show ¬ a + 2 = a + 1 by omega]
    · simp [show ¬ a + 3 = a by omega, show ¬ a + 3 = a + 1 by omega,
        show ¬ a + 3 = a + 2 by omega]
    · simp [show ¬ a + 4 = a by omega, show ¬ a + 4 = a + 1 by omega,
        show ¬ a + 4 = a + 2 by omega, show ¬ a + 4 = a + 3 by omega]
    · simp [show ¬ a + 5 = a by omega, show ¬ a + 5 = a + 1 by omega,
        show ¬ a + 5 = a + 2 by omega, show ¬ a + 5 = a + 3 by omega,
        show ¬ a + 5 = a + 4 by omega]
    · simp [show ¬ a + 6 = a by omega, show ¬ a + 6 = a + 1 by omega,
        show ¬ a + 6 = a + 2 by omega, show ¬ a + 6 = a + 3 by omega,
        show ¬ a + 6 = a + 4 by omega, show ¬ a + 6 = a + 5 by omega]
    · simp [show ¬ a + 7 = a by omega, show ¬ a + 7 = a + 1 by omega,
        show ¬ a + 7 = a + 2 by omega, show ¬ a + 7 = a + 3 by omega,
        show ¬ a + 7 = a + 4 by omega, show ¬ a + 7 = a + 5 by omega,
        show ¬ a + 7 = a + 6 by omega]
  · rw [if_neg hc] at h
    exact absurd h (by simp)

theorem load16_eq {m : GuestMem} {a v : Nat} (ord : MemOrder)
    (hva : m.validByte a = true) (hvb : m.validByte (a + 1) = true)
    (h0 : m.byte a = v % 256) (h1 : m.byte (a + 1) = v / 256 % 256) :
    m.load16 a ord = some (v % U16MOD) := by
  unfold GuestMem.load16
  rw [hva, hvb, h0, h1]
  simp only [Bool.and_self, if_true]
  congr 1
  unfold U16MOD
  omega

theorem load32_eq {m : GuestMem} {a v : Nat}
    (hv : ∀ i, i < 4 → m.validByte (a + i) = true)
    (h0 : m.byte a = v % 256) (h1 : m.byte (a + 1) = v / 256 % 256)
    (h2 : m.byte (a + 2) = v / 65536 % 256) (h3 : m.byte (a + 3) = v / 16777216 % 256) :
    m.load32 a = some (v % 4294967296) := by
  unfold GuestMem.load32
  rw [if_pos (validRange_intro hv), h0, h1, h2, h3]
  congr 1
  omega

theorem loadUsedElem_eq {m : GuestMem} {a i l : Nat}
    (hA : m.load32 a = some i) (hB : m.load32 (a + 4) = some l) :
    m.loadUsedElem a = some (i, l) := by
  unfold GuestMem.loadUsedElem
  rw [hA, hB]

/-! Theorems for the claims. -/

/-- C6: with the event-index feature disabled, `needs_notification` returns
`Ok(true)` and leaves the queue untouched, for every queue state and every
memory (it performs no guest-memory access at all on this path). -/
theorem needs_notification_without_event_idx (q : Queue) (m : GuestMem)
    (h : q.event_idx_enabled = false) :
    q.needs_notification m = (.ok true, q) := by
  simp [Queue.needs_notification, h]

/-- Witness for C6 at a concrete queue and memory. -/
theorem needs_notification_without_event_idx_witness :
    Queue.needs_notification qOff memAll = (.ok true, qOff) :=
  needs_notification_without_event_idx qOff memAll rfl

/-- C8: `reset` restores `ready = false`, `size = max_size`, zeroed counters,
`event_idx_enabled = false` and the construction-time default ring addresses,
while `max_size` keeps its prior value — for every prior state. -/
theorem reset_restores_defaults (q : Queue) :
    (q.reset).ready = false ∧
    (q.reset).size = q.max_size ∧
    (q.reset).next_avail = 0 ∧
    (q.reset).next_used = 0 ∧
    (q.reset).num_added = 0 ∧
    (q.reset).event_idx_enabled = false ∧
    (q.reset).desc_table = DEFAULT_DESC_TABLE_ADDR ∧
    (q.reset).avail_ring = DEFAULT_AVAIL_RING_ADDR ∧
    (q.reset).used_ring = DEFAULT_USED_RING_ADDR ∧
    (q.reset).max_size = q.max_size :=
  ⟨rfl, rfl, rfl, rfl, rfl, rfl, rfl, rfl, rfl, rfl⟩

/-- C9: `Descriptor::next` is defined only on the split variant — the packed
arm reaches `unimplemented!()`, modelled as `none`; every other shared
accessor is total on both variants. -/
theorem descriptor_next_unimplemented_on_packed :
    (∀ p : PackedDesc, (Descriptor.PackedDescriptor p).next = none) ∧
    (∀ s : SplitDesc, (Descriptor.SplitDescriptor s).next = some s.next) ∧
    (∀ d : Descriptor, d.addr.isSome ∧ d.len.isSome ∧ d.flags.isSome ∧
      d.refers_to_indirect_table.isSome ∧ (Descriptor.has_next d).isSome ∧
      d.is_write_only.isSome) := by
  refine ⟨fun p => rfl, fun s => rfl, fun d => ?_⟩
  cases d <;>
    simp [Descriptor.addr, Descriptor.len, Descriptor.flags,
      Descriptor.refers_to_indirect_table, Descriptor.has_next,
      Descriptor.is_write_only]

/-- C7 (amended only in no way — confirmed): `set_size` accepts exactly the
sizes `0 < s ≤ max_size` that are powers of two, setting only the `size`
field; everything else is rejected with the whole queue left unchanged.
Includes the spec's `max_size = 16` examples. -/
theorem set_size_validation (q : Queue) (s : Nat) :
    (¬(0 < s ∧ s ≤ q.max_size ∧ ∃ k, s = 2^k) → q.set_size s = q) ∧
    ((0 < s ∧ s ≤ q.max_size ∧ ∃ k, s = 2^k) → q.set_size s = { q with size := s }) ∧
    (Queue.set_size (Queue.new 16) 32 = Queue.new 16) ∧
    (Queue.set_size (Queue.new 16) 0 = Queue.new 16) ∧
    (Queue.set_size (Queue.new 16) 11 = Queue.new 16) ∧
    (Queue.set_size (Queue.new 16) 4 = { Queue.new 16 with size := 4 }) := by
  refine ⟨?_, ?_, by decide, by decide, by decide, by decide⟩
  · intro hn
    unfold Queue.set_size
    split
    · rfl
    · exfalso
      apply hn
      rename_i hg
      simp only [Bool.or_eq_true, not_or, gt_iff_lt, decide_eq_true_eq, not_lt,
        beq_iff_eq, bne_iff_ne, ne_eq, not_not] at hg
      obtain ⟨⟨hle, hne⟩, hland⟩ := hg
      have h0 : 0 < s := Nat.pos_of_ne_zero hne
      exact ⟨h0, hle, pow2_of_land_pred s h0 hland⟩
  · rintro ⟨h0, hle, k, rfl⟩
    unfold Queue.set_size
    split
    · rename_i hg
      exfalso
      simp only [Bool.or_eq_true, gt_iff_lt, decide_eq_true_eq,
        beq_iff_eq, bne_iff_ne, ne_eq] at hg
      rcases hg with (hg | hg) | hg
      · omega
      · omega
      · exact hg (land_pred_of_pow2 k)
    · rfl

/-- Witness for C7: accepting `set_size 4` on a fresh queue of `max_size` 16. -/
theorem set_size_validation_witness :
    Queue.set_size (Queue.new 16) 4 = { Queue.new 16 with size := 4 } :=
  (set_size_validation (Queue.new 16) 4).2.1 ⟨by decide, by decide, 2, rfl⟩

/-- C2 (amended): `needs_notification` resets `num_added` to zero on every
successful call made with the event-index feature enabled; with the feature
disabled it leaves the whole queue — `num_added` included — unchanged. -/
theorem needs_notification_num_added_reset (q : Queue) (m : GuestMem) :
    (q.event_idx_enabled = true →
      ∀ b q1, q.needs_notification m = (.ok b, q1) → q1.num_added = 0) ∧
    (q.event_idx_enabled = false → (q.needs_notification m).2 = q) := by
  constructor
  · intro h b q1 heq
    unfold Queue.needs_notification at heq
    rw [if_pos h] at heq
    split at heq
    · exact absurd (congrArg Prod.fst heq) (by simp)
    · have := congrArg Prod.snd heq
      simp at this
      rw [← this]
  · intro h
    simp [Queue.needs_notification, h]

/-- Counterexample to C2 as stated: with the event-index feature disabled a
successful `needs_notification` call leaves `num_added` at its prior nonzero
value (7 here) instead of resetting it to 0. -/
theorem needs_notification_num_added_not_reset_when_disabled :
    (Queue.needs_notification qOff memAll).1 = .ok true ∧
    ((Queue.needs_notification qOff memAll).2).num_added = 7 :=
  ⟨rfl, rfl⟩

/-- Witness for C2's amended theorem at a concrete queue with the feature on. -/
theorem needs_notification_num_added_reset_witness :
    ((Queue.needs_notification qC1 memC1).2).num_added = 0 := by
  have h := (needs_notification_num_added_reset qC1 memC1).1 rfl false
    { qC1 with num_added := 0 } rfl
  exact h

/-- C3: `add_used` with `head ≥ size` fails with the index-out-of-range error
and leaves queue and memory untouched; with a valid head (and successful
memory accesses) it writes the element `{id: head, len}` at
`used_ring + header + (next_used mod size) * 8`, increments `next_used` and
`num_added` by one (wrapping), and publishes the incremented `next_used` to
the used ring's `idx` word at `used_ring + 2`. -/
theorem add_used_contract (q : Queue) (m : GuestMem) (head len : Nat)
    (hsz : q.size ≤ U16MOD) (hlen : len < 4294967296) :
    (head ≥ q.size → q.add_used m head len = (.error .InvalidDescriptorIndex, q, m)) ∧
    (∀ addr, head < q.size →
      checkedAdd q.used_ring
        (VIRTQ_USED_RING_HEADER_SIZE + (q.next_used % q.size) * VIRTQ_USED_ELEMENT_SIZE)
        = some addr →
      m.validRange addr 8 = true →
      m.validByte (q.used_ring + 2) = true → m.validByte (q.used_ring + 2 + 1) = true →
      ∃ m2, q.add_used m head len =
        (.ok (), { q with next_used := (q.next_used + 1) % U16MOD,
                          num_added := (q.num_added + 1) % U16MOD }, m2) ∧
        m2.loadUsedElem addr = some (head, len) ∧
        (∀ ord, m2.load16 (q.used_ring + 2) ord = some ((q.next_used + 1) % U16MOD))) := by
  constructor
  · intro hge
    unfold Queue.add_used
    rw [if_pos hge]
  · intro addr hlt haddr helem hv2 hv3
    simp only [Queue.add_used]
    rw [if_neg (by omega : ¬ head ≥ q.size), haddr]
    dsimp only
    obtain ⟨m1, hw⟩ := writeUsedElem_isSome m addr head len helem
    rw [hw]
    dsimp only
    obtain ⟨hval1, hpres1, hvr1, hb0, hb1, hb2, hb3, hb4, hb5, hb6, hb7⟩ :=
      writeUsedElem_some_eq hw
    have hbound : q.used_ring +
        (VIRTQ_USED_RING_HEADER_SIZE + q.next_used % q.size * VIRTQ_USED_ELEMENT_SIZE)
        < U64LIMIT ∧ addr = q.used_ring +
        (VIRTQ_USED_RING_HEADER_SIZE + q.next_used % q.size * VIRTQ_USED_ELEMENT_SIZE) := by
      unfold checkedAdd at haddr
      split at haddr
      · exact ⟨by assumption, (Option.some.inj haddr).symm⟩
      · exact absurd haddr (by simp)
    have hca2 : checkedAdd q.used_ring 2 = some (q.used_ring + 2) := by
      unfold checkedAdd
      rw [if_pos]
      have := hbound.1
      unfold VIRTQ_USED_RING_HEADER_SIZE at this
      omega
    rw [hca2]
    dsimp only
    have hv2' : m1.validByte (q.used_ring + 2) = true := by rw [hval1]; exact hv2
    have hv3' : m1.validByte (q.used_ring + 2 + 1) = true := by rw [hval1]; exact hv3
    obtain ⟨m2, hs⟩ := store16_isSome m1 (q.used_ring + 2) ((q.next_used + 1) % U16MOD)
      .Release hv2' hv3'
    rw [hs]
    dsimp only
    obtain ⟨hval2, hpres2, _, _, hc0, hc1⟩ := store16_some_eq hs
    have haddr4 : q.used_ring + 4 ≤ addr := by
      rw [hbound.2]
      unfold VIRTQ_USED_RING_HEADER_SIZE
      omega
    have hbyteeq : ∀ i, i ≤ 7 → m2.byte (addr + i) = m1.byte (addr + i) := by
      intro i hi
      exact hpres2 _ (by omega) (by omega)
    have hvalid2 : ∀ i, i < 8 → m2.validByte (addr + i) = true := by
      intro i hi
      rw [hval2, hval1]
      exact hvr1 i hi
    refine ⟨m2, rfl, ?_, ?_⟩
    · have e0 : m2.byte addr = m1.byte addr := hpres2 _ (by omega) (by omega)
      have hA : m2.load32 addr = some (head % 4294967296) := by
        apply load32_eq
        · intro i hi
          exact hvalid2 i (by omega)
        · rw [e0, hb0]
        · rw [hbyteeq 1 (by omega), hb1]
        · rw [hbyteeq 2 (by omega), hb2]
        · rw [hbyteeq 3 (by omega), hb3]
      have hB : m2.load32 (addr + 4) = some (len % 4294967296) := by
        apply load32_eq
        · intro i hi
          have e : addr + 4 + i = addr + (4 + i) := by omega
          rw [e]
          exact hvalid2 (4 + i) (by omega)
        · rw [hbyteeq 4 (by omega), hb4]
        · have e : addr + 4 + 1 = addr + 5 := by omega
          rw [e, hbyteeq 5 (by omega), hb5]
        · have e : addr + 4 + 2 = addr + 6 := by omega
          rw [e, hbyteeq 6 (by omega), hb6]
        · have e : addr + 4 + 3 = addr + 7 := by omega
          rw [e, hbyteeq 7 (by omega), hb7]
      rw [Nat.mod_eq_of_lt (show head < 4294967296 by unfold U16MOD at hsz; omega)] at hA
      rw [Nat.mod_eq_of_lt hlen] at hB
      exact loadUsedElem_eq hA hB
    · intro ord
      have hl := load16_eq ord (by rw [hval2, hval1]; exact hv2)
        (by rw [hval2, hval1]; exact hv3) hc0 hc1
      have e : ((q.next_used + 1) % U16MOD) % U16MOD = (q.next_used + 1) % U16MOD := by
        unfold U16MOD
        omega
      rw [e] at hl
      exact hl

/-- Witness for C3: a successful `add_used` of head 1, length 4096 on a fresh
queue with its used ring at 4096, backed by fully-valid memory. -/
theorem add_used_contract_witness :
    ∃ m2, Queue.add_used qSmall memAll 1 4096 =
      (.ok (), { qSmall with next_used := 1, num_added := 1 }, m2) ∧
      m2.loadUsedElem 4100 = some (1, 4096) ∧
      (∀ ord, m2.load16 4098 ord = some 1) := by
  have h := (add_used_contract qSmall memAll 1 4096 (by decide) (by decide)).2 4100
    (by decide) (by decide) (by decide) (by decide) (by decide)
  exact h

/-- C10: `add_used` is not atomic across its final failure point.  The three
failure cases detected before the counter increments (index out of range,
address overflow, element-write rejection) leave queue and memory unchanged;
but when the element write succeeds and only the subsequent store publishing
the new `idx` fails, the call reports a guest-memory error while `next_used`
and `num_added` are already incremented by one. -/
theorem add_used_nonatomic_on_publish_failure (q : Queue) (m : GuestMem)
    (head len : Nat) :
    (head ≥ q.size → q.add_used m head len = (.error .InvalidDescriptorIndex, q, m)) ∧
    (head < q.size →
      checkedAdd q.used_ring
        (VIRTQ_USED_RING_HEADER_SIZE + (q.next_used % q.size) * VIRTQ_USED_ELEMENT_SIZE)
        = none →
      q.add_used m head len = (.error .AddressOverflow, q, m)) ∧
    (∀ addr, head < q.size →
      checkedAdd q.used_ring
        (VIRTQ_USED_RING_HEADER_SIZE + (q.next_used % q.size) * VIRTQ_USED_ELEMENT_SIZE)
        = some addr →
      m.writeUsedElem addr head len = none →
      q.add_used m head len = (.error .GuestMemory, q, m)) ∧
    (∀ addr, head < q.size →
      checkedAdd q.used_ring
        (VIRTQ_USED_RING_HEADER_SIZE + (q.next_used % q.size) * VIRTQ_USED_ELEMENT_SIZE)
        = some addr →
      m.validRange addr 8 = true →
      (m.validByte (q.used_ring + 2) && m.validByte (q.used_ring + 2 + 1)) = false →
      ∃ m1, q.add_used m head len =
        (.error .GuestMemory,
         { q with next_used := (q.next_used + 1) % U16MOD,
                  num_added := (q.num_added + 1) % U16MOD }, m1)) := by
  refine ⟨?_, ?_, ?_, ?_⟩
  · intro hge
    unfold Queue.add_used
    rw [if_pos hge]
  · intro hlt hnone
    simp only [Queue.add_used]
    rw [if_neg (by omega : ¬ head ≥ q.size), hnone]
  · intro addr hlt haddr hwfail
    simp only [Queue.add_used]
    rw [if_neg (by omega : ¬ head ≥ q.size), haddr]
    dsimp only
    rw [hwfail]
  · intro addr hlt haddr helem hfail
    simp only [Queue.add_used]
    rw [if_neg (by omega : ¬ head ≥ q.size), haddr]
    dsimp only
    obtain ⟨m1, hw⟩ := writeUsedElem_isSome m addr head len helem
    rw [hw]
    dsimp only
    obtain ⟨hval1, -, -, -⟩ := writeUsedElem_some_eq hw
    have hbound : addr = q.used_ring +
        (VIRTQ_USED_RING_HEADER_SIZE + q.next_used % q.size * VIRTQ_USED_ELEMENT_SIZE) ∧
        q.used_ring +
        (VIRTQ_USED_RING_HEADER_SIZE + q.next_used % q.size * VIRTQ_USED_ELEMENT_SIZE)
        < U64LIMIT := by
      unfold checkedAdd at haddr
      split at haddr
      · exact ⟨(Option.some.inj haddr).symm, by assumption⟩
      · exact absurd haddr (by simp)
    have hca2 : checkedAdd q.used_ring 2 = some (q.used_ring + 2) := by
      unfold checkedAdd
      rw [if_pos]
      have := hbound.2
      unfold VIRTQ_USED_RING_HEADER_SIZE at this
      omega
    rw [hca2]
    dsimp only
    have hsfail : m1.store16 (q.used_ring + 2) ((q.next_used + 1) % U16MOD) .Release
        = none := by
      apply store16_none
      rw [hval1]
      exact hfail
    rw [hsfail]
    exact ⟨m1, rfl⟩

/-- Witness for C10: on a queue with its used ring at address 0 and a memory
hole at bytes 2 and 3, the element write at address 4 succeeds but publishing
the `idx` fails, and the counters come back incremented alongside the error. -/
theorem add_used_nonatomic_on_publish_failure_witness :
    ∃ m1, Queue.add_used qC10 memHole 1 7 =
      (.error .GuestMemory, { qC10 with next_used := 1, num_added := 1 }, m1) := by
  have h := (add_used_nonatomic_on_publish_failure qC10 memHole 1 7).2.2.2 4
    (by decide) (by decide) (by decide) (by decide)
  exact h

theorem checkedAdd_elim_bad_iff (b sz : Nat) (m : GuestMem) :
    ((checkedAdd b sz).elim true (fun v => !(m.addressInRange v)) = true)
    ↔ ¬(b + sz < U64LIMIT ∧ m.addressInRange (b + sz) = true) := by
  unfold checkedAdd
  by_cases h : b + sz < U64LIMIT
  · rw [if_pos h]
    simp [h]
  · rw [if_neg h]
    simp [h]

/-- C4 (amended): `is_valid` is true iff `ready` is set and, for each of the
three ring regions, the one-past-the-end address `base + region_size`
computes without `u64` overflow and is itself inside the addressable range;
an overflowing configuration is reported invalid rather than panicking. -/
theorem is_valid_end_address_check (q : Queue) (m : GuestMem) :
    q.is_valid m = true ↔
      (q.ready = true ∧
       (q.desc_table + sizeOfDescriptor * q.size < U64LIMIT ∧
        m.addressInRange (q.desc_table + sizeOfDescriptor * q.size) = true) ∧
       (q.avail_ring + (VIRTQ_AVAIL_RING_META_SIZE + VIRTQ_AVAIL_ELEMENT_SIZE * q.size)
          < U64LIMIT ∧
        m.addressInRange
          (q.avail_ring + (VIRTQ_AVAIL_RING_META_SIZE + VIRTQ_AVAIL_ELEMENT_SIZE * q.size))
          = true) ∧
       (q.used_ring + (VIRTQ_USED_RING_META_SIZE + VIRTQ_USED_ELEMENT_SIZE * q.size)
          < U64LIMIT ∧
        m.addressInRange
          (q.used_ring + (VIRTQ_USED_RING_META_SIZE + VIRTQ_USED_ELEMENT_SIZE * q.size))
          = true)) := by
  simp only [Queue.is_valid]
  cases hr : q.ready with
  | false => simp [hr]
  | true =>
    simp only [hr, Bool.not_true, Bool.false_eq_true, if_false]
    split_ifs with h1 h2 h3
    · rw [checkedAdd_elim_bad_iff] at h1
      simp [h1]
    · rw [checkedAdd_elim_bad_iff] at h2
      simp [h2]
    · rw [checkedAdd_elim_bad_iff] at h3
      simp [h3]
    · rw [checkedAdd_elim_bad_iff, not_not] at h1 h2 h3
      simp [h1, h2, h3]

set_option maxRecDepth 8192 in
/-- Counterexample to C4 as stated: a ready queue whose descriptor table
occupies exactly the last 256 bytes of a 65536-byte memory.  All three
regions fit entirely within the addressable range, yet `is_valid` is false,
because the code checks that the one-past-the-end address is in range. -/
theorem is_valid_boundary_counterexample :
    Queue.is_valid qC4 memC4 = false ∧
    qC4.ready = true ∧
    regionFits memC4 qC4.desc_table (sizeOfDescriptor * qC4.size) ∧
    regionFits memC4 qC4.avail_ring
      (VIRTQ_AVAIL_RING_META_SIZE + VIRTQ_AVAIL_ELEMENT_SIZE * qC4.size) ∧
    regionFits memC4 qC4.used_ring
      (VIRTQ_USED_RING_META_SIZE + VIRTQ_USED_ELEMENT_SIZE * qC4.size) := by
  refine ⟨by decide, rfl, ⟨by decide, by decide⟩, ⟨by decide, by decide⟩,
    ⟨by decide, by decide⟩⟩

/-- C5: with the event-index feature on, a successful arming writes the
device's current `next_avail` (the pending cursor) into the `avail_event`
slot of the used ring at offset `header + element_size * size`, and
disabling performs no memory write; with the feature off, arming clears the
used ring's `flags` word to 0 and disabling stores `NO_NOTIFY` there.  In
all cases `enable_notification` reports true exactly when the re-read
`avail_idx` differs from `next_avail`. -/
theorem notification_toggle_contract (q : Queue) (m : GuestMem) :
    (q.event_idx_enabled = true →
      q.used_ring + (VIRTQ_USED_RING_HEADER_SIZE + VIRTQ_USED_ELEMENT_SIZE * q.size)
        < U64LIMIT →
      m.validByte (q.used_ring + (VIRTQ_USED_RING_HEADER_SIZE
        + VIRTQ_USED_ELEMENT_SIZE * q.size)) = true →
      m.validByte (q.used_ring + (VIRTQ_USED_RING_HEADER_SIZE
        + VIRTQ_USED_ELEMENT_SIZE * q.size) + 1) = true →
      (∃ m1, q.set_notification m true = .ok m1 ∧
        (∀ ord, m1.load16 (q.used_ring + (VIRTQ_USED_RING_HEADER_SIZE
          + VIRTQ_USED_ELEMENT_SIZE * q.size)) ord = some (q.next_avail % U16MOD))) ∧
      q.disable_notification m = .ok m) ∧
    (q.event_idx_enabled = false →
      m.validByte q.used_ring = true → m.validByte (q.used_ring + 1) = true →
      (∃ m1, q.set_notification m true = .ok m1 ∧
        (∀ ord, m1.load16 q.used_ring ord = some 0)) ∧
      (∃ m2, q.disable_notification m = .ok m2 ∧
        (∀ ord, m2.load16 q.used_ring ord = some VRING_USED_F_NO_NOTIFY))) ∧
    (∀ b m1, q.enable_notification m = .ok (b, m1) →
      q.set_notification m true = .ok m1 ∧
      (∀ v, q.avail_idx m1 .Relaxed = .ok v →
        (b = true ↔ v ≠ q.next_avail % U16MOD))) := by
  refine ⟨?_, ?_, ?_⟩
  · intro hei hbound hv1 hv2
    have hca : checkedAdd q.used_ring
        (VIRTQ_USED_RING_HEADER_SIZE + VIRTQ_USED_ELEMENT_SIZE * q.size)
        = some (q.used_ring + (VIRTQ_USED_RING_HEADER_SIZE
          + VIRTQ_USED_ELEMENT_SIZE * q.size)) := by
      unfold checkedAdd
      rw [if_pos hbound]
    obtain ⟨m1, hs⟩ := store16_isSome m (q.used_ring + (VIRTQ_USED_RING_HEADER_SIZE
      + VIRTQ_USED_ELEMENT_SIZE * q.size)) q.next_avail .Relaxed hv1 hv2
    obtain ⟨hval1, hpres1, -, -, hb0, hb1⟩ := store16_some_eq hs
    constructor
    · refine ⟨m1, ?_, ?_⟩
      · simp only [Queue.set_notification, hei, if_true, Queue.set_avail_event, hca]
        rw [hs]
      · intro ord
        exact load16_eq ord (by rw [hval1]; exact hv1) (by rw [hval1]; exact hv2) hb0 hb1
    · simp [Queue.disable_notification, Queue.set_notification, hei]
  · intro hei hv1 hv2
    constructor
    · obtain ⟨m1, hs⟩ := store16_isSome m q.used_ring 0 .Relaxed hv1 hv2
      obtain ⟨hval1, -, -, -, hb0, hb1⟩ := store16_some_eq hs
      refine ⟨m1, ?_, ?_⟩
      · simp [Queue.set_notification, hei, Queue.set_used_flags, hs]
      · intro ord
        have hl := load16_eq ord (by rw [hval1]; exact hv1) (by rw [hval1]; exact hv2)
          hb0 hb1
        simpa using hl
    · obtain ⟨m2, hs⟩ := store16_isSome m q.used_ring VRING_USED_F_NO_NOTIFY .Relaxed hv1 hv2
      obtain ⟨hval2, -, -, -, hb0, hb1⟩ := store16_some_eq hs
      refine ⟨m2, ?_, ?_⟩
      · simp [Queue.disable_notification, Queue.set_notification, hei,
          Queue.set_used_flags, hs]
      · intro ord
        have hl := load16_eq ord (by rw [hval2]; exact hv1) (by rw [hval2]; exact hv2)
          hb0 hb1
        simpa [VRING_USED_F_NO_NOTIFY, U16MOD] using hl
  · intro b m1 h
    unfold Queue.enable_notification at h
    split at h
    · exact absurd h (by simp)
    · rename_i m1' hset
      split at h
      · exact absurd h (by simp)
      · rename_i idx hidx
        injection h with h
        injection h with hb hm
        subst hm
        refine ⟨hset, ?_⟩
        intro v hv
        rw [hv] at hidx
        injection hidx with hvi
        subst hvi
        subst hb
        simp

/-- Witness for C5: arming notifications on a queue with the event-index
feature on writes `next_avail = 0` into the avail-event slot at
`4096 + 4 + 8*16`, and disabling is a pure no-op. -/
theorem notification_toggle_contract_witness :
    (∃ m1, Queue.set_notification qSmall memAll true = .ok m1 ∧
      (∀ ord, m1.load16 (4096 + (VIRTQ_USED_RING_HEADER_SIZE
        + VIRTQ_USED_ELEMENT_SIZE * 16)) ord = some 0)) ∧
    Queue.disable_notification qSmall memAll = .ok memAll := by
  have h := (notification_toggle_contract qSmall memAll).1 rfl (by decide)
    (by decide) (by decide)
  exact h

theorem wsub16_formula_iff (nu thr na : Nat) (hnu : nu < U16MOD) (hthr : thr < U16MOD)
    (hna : na < U16MOD) :
    (wsub16 (wsub16 nu thr) 1 < wsub16 nu (wsub16 nu na)) ↔
      inCircIntervalCO (wsub16 nu na) nu thr := by
  unfold inCircIntervalCO wsub16 U16MOD at *
  constructor
  · intro h
    refine ⟨na - (nu % 65536 + 65536 - thr % 65536) % 65536, ?_, ?_⟩ <;> omega
  · rintro ⟨k, hk, heq⟩
    omega

/-- Counterexample to C1 as stated: with `used_event = 5`, `num_added = 1`
and `next_used = 5`, the threshold 5 lies in the circular half-open interval
`(old, next_used] = (4, 5]`, and the claim says `needs_notification` is true
here — but the code returns false (it fires at `next_used = used_event + 1`,
that is at 6). -/
theorem needs_notification_used_event_five_counterexample :
    (Queue.needs_notification (qC1at 5) memC1).1 = .ok false ∧
    inCircIntervalOC (wsub16 5 1) 5 5 := by
  constructor
  · rfl
  · exact ⟨1, by decide, by decide, by decide⟩

/-- C1 (amended): with the event-index feature on and `used_event = 5`,
sweeping `next_used` over the 16-bit range with `num_added = 1` makes
`needs_notification` report true exactly at `next_used = 6`, i.e. at
`used_event + 1`; in general a successful evaluation reports true iff the
threshold lies in the circular half-open interval `[old, next_used)` where
`old = next_used - num_added` (equivalently, iff `threshold + 1` lies in
`(old, next_used]`). -/
theorem needs_notification_threshold_crossing :
    (∀ nu, nu < U16MOD →
      (Queue.needs_notification (qC1at nu) memC1).1 = .ok (decide (nu = 6))) ∧
    (∀ (q : Queue) (m : GuestMem) (thr : Nat) (b : Bool) (q1 : Queue),
      q.event_idx_enabled = true → q.next_used < U16MOD → q.num_added < U16MOD →
      thr < U16MOD → q.used_event m .Relaxed = .ok thr →
      q.needs_notification m = (.ok b, q1) →
      (b = true ↔ inCircIntervalCO (wsub16 q.next_used q.num_added) q.next_used thr)) := by
  constructor
  · intro nu hnu
    have hue : Queue.used_event (qC1at nu) memC1 .Relaxed = .ok 5 := rfl
    simp only [Queue.needs_notification]
    rw [if_pos (show (qC1at nu).event_idx_enabled = true from rfl), hue]
    dsimp only
    rw [show (qC1at nu).next_used = nu from rfl, show (qC1at nu).num_added = 1 from rfl]
    rw [Except.ok.injEq, decide_eq_decide]
    unfold wsub16 U16MOD
    unfold U16MOD at hnu
    omega
  · intro q m thr b q1 hei hnu hna hthr hue h
    unfold Queue.needs_notification at h
    rw [if_pos hei, hue] at h
    dsimp only at h
    rw [Prod.mk.injEq, Except.ok.injEq] at h
    rw [← h.1, decide_eq_true_eq]
    exact wsub16_formula_iff q.next_used thr q.num_added hnu hthr hna

/-- Witness for C1's amended theorem: the sweep instance at `next_used = 6`,
where `needs_notification` reports true. -/
theorem needs_notification_threshold_crossing_witness :
    (Queue.needs_notification (qC1at 6) memC1).1 = .ok true := by
  have h := needs_notification_threshold_crossing.1 6 (by decide)
  exact h
